import Mathlib

/-!
Verification of the litepcie_test repository's probe-tracking and
statistics engine against its design specification.

The definitions below are shallow embeddings of the C sources:
* `litepcie_dma_test_optimized_v2.c` — pattern codec (`generate_pattern`,
  `verify_pattern`) with five pattern modes and a seeded LCG;
* `litepcie_dma_latency_test.c` — pattern codec variant, the statistics
  aggregator (`update_stats`), and percentile computation
  (`calculate_percentile`);
* `user/litepcie_latency_test_final.c` — the pending-probe ledger and
  the producer/consumer loop of `pcie_latency_test`.

Machine integers (`uint32_t`, `uint64_t`, sizes) are modelled as `Nat`
with explicit reductions `% 2 ^ 32` where the C computation can wrap.
C doubles that only carry exact small integers and their sums are
modelled as `ℚ`.
-/

namespace LitePCIe

/-! ### Pattern codec of `litepcie_dma_test_optimized_v2.c`

`generate_pattern(uint32_t *buffer, size_t count, uint32_t *seed)` fills
`count` 32-bit words according to `config.pattern_type`, threading `*seed`
through the LCG `*seed = *seed * 69069 + 1` in the random mode.
`verify_pattern(uint32_t *buffer, size_t count, uint32_t *seed)`
recomputes the expected stream and counts mismatches, breaking out of the
scan once `errors > 10`.
-/

/-- The five pattern modes of `litepcie_dma_test_optimized_v2.c`:
`PATTERN_SEQ`, `PATTERN_RANDOM`, `PATTERN_ONES`, `PATTERN_ZEROS`,
`PATTERN_ALT`. -/
inductive PatternV2 where
  | seq
  | random
  | ones
  | zeros
  | alt
deriving DecidableEq

/-- One step of the LCG used by the random mode:
`*seed = *seed * 69069 + 1` on `uint32_t`. -/
def lcgNext (s : Nat) : Nat := (s * 69069 + 1) % 2 ^ 32

/-- The word written at absolute index `i` with current seed `seed`,
together with the seed after the write (mirrors one iteration of the
`generate_pattern` loop body; only the random mode advances the seed). -/
def genStep (p : PatternV2) (i seed : Nat) : Nat × Nat :=
  match p with
  | .seq => (i % 2 ^ 32, seed)
  | .random => (lcgNext seed, lcgNext seed)
  | .ones => (0xFFFFFFFF, seed)
  | .zeros => (0, seed)
  | .alt => (if i % 2 = 1 then 0xFFFFFFFF else 0, seed)

/-- `generate_pattern` starting at absolute index `i`, producing `n`
words; returns the buffer contents and the final seed. -/
def generateFrom (p : PatternV2) (i n seed : Nat) : List Nat × Nat :=
  match n with
  | 0 => ([], seed)
  | n + 1 =>
    let w := genStep p i seed
    let rest := generateFrom p (i + 1) n w.2
    (w.1 :: rest.1, rest.2)

/-- `generate_pattern(buffer, count, &seed)`: the buffer written and the
final seed. -/
def generate_pattern (p : PatternV2) (count seed : Nat) : List Nat × Nat :=
  generateFrom p 0 count seed

/-- The scanning loop of `verify_pattern` from absolute index `i` with
current seed `seed` and accumulated error count `errors`; mirrors
`errors++; if (errors > 10) break;`. -/
def verifyFrom (p : PatternV2) (buf : List Nat) (i seed errors : Nat) : Nat :=
  match buf with
  | [] => errors
  | w :: rest =>
    let e := genStep p i seed
    if w = e.1 then
      verifyFrom p rest (i + 1) e.2 errors
    else if errors + 1 > 10 then errors + 1
    else verifyFrom p rest (i + 1) e.2 (errors + 1)

/-- `verify_pattern(buffer, count, &seed)`: the returned error count. -/
def verify_pattern (p : PatternV2) (buf : List Nat) (seed : Nat) : Nat :=
  verifyFrom p buf 0 seed 0

/-- The total number of positions at which two buffers differ
(the quantity the specification calls the full mismatch count). -/
def numMismatches (buf expected : List Nat) : Nat :=
  match buf, expected with
  | b :: bs, e :: es => (if b = e then 0 else 1) + numMismatches bs es
  | _, _ => 0

/-! ### Pattern codec of `litepcie_dma_latency_test.c`

`generate_pattern(uint32_t *buffer, size_t count, uint32_t iteration)`
fills the buffer from the iteration number; the random mode samples
`rand()`, modelled by an arbitrary stream `rnd`.  Its `verify_pattern`
compares the received buffer against a retained copy of the transmitted
buffer word by word, counting every mismatch; the `errors < 10` bound
only gates the diagnostic `printf`, never the count.
-/

/-- The four pattern modes of `litepcie_dma_latency_test.c`:
`PATTERN_SEQ`, `PATTERN_RANDOM`, `PATTERN_FIXED`, `PATTERN_WALKING`. -/
inductive PatternLat where
  | seqp
  | randomp
  | fixedp
  | walking
deriving DecidableEq

/-- Word `i` of the latency-test pattern for iteration number `it`.
`(iteration << 16) | (i & 0xFFFF)` on `uint32_t` is the sum of the
disjoint bit ranges `(it % 2^16) * 2^16` and `i % 2^16`. -/
def genWordLat (p : PatternLat) (it : Nat) (rnd : Nat → Nat) (i : Nat) : Nat :=
  match p with
  | .seqp => (it % 2 ^ 16) * 2 ^ 16 + i % 2 ^ 16
  | .randomp => rnd i % 2 ^ 32
  | .fixedp => 0xDEADBEEF
  | .walking => 2 ^ (i % 32)

/-- `generate_pattern(buffer, count, iteration)` of
`litepcie_dma_latency_test.c`. -/
def generate_pattern_lat (p : PatternLat) (count it : Nat) (rnd : Nat → Nat) :
    List Nat :=
  (List.range count).map (genWordLat p it rnd)

/-- `verify_pattern(buffer, expected, count)` of
`litepcie_dma_latency_test.c`: counts every mismatching word. -/
def verify_pattern_lat (buf expected : List Nat) : Nat :=
  match buf, expected with
  | b :: bs, e :: es =>
    (if b = e then 0 else 1) + verify_pattern_lat bs es
  | _, _ => 0

/-! #### Codec lemmas -/

theorem verifyFrom_generateFrom (p : PatternV2) (n : Nat) :
    ∀ i seed, verifyFrom p (generateFrom p i n seed).1 i seed 0 = 0 := by
  induction n with
  | zero => intro i seed; rfl
  | succ n ih =>
    intro i seed
    simp only [generateFrom, verifyFrom, if_pos rfl]
    exact ih (i + 1) (genStep p i seed).2

theorem verifyFrom_min (p : PatternV2) (buf : List Nat) :
    ∀ i seed errors, errors ≤ 10 →
      verifyFrom p buf i seed errors =
        min (errors + numMismatches buf (generateFrom p i buf.length seed).1) 11 := by
  induction buf with
  | nil =>
    intro i seed errors h
    simp only [verifyFrom, generateFrom, numMismatches]
    omega
  | cons w rest ih =>
    intro i seed errors h
    simp only [verifyFrom, List.length_cons, generateFrom, numMismatches]
    by_cases hw : w = (genStep p i seed).1
    · simp only [if_pos hw, ih (i + 1) (genStep p i seed).2 errors h]
      omega
    · simp only [if_neg hw]
      by_cases hb : errors + 1 > 10
      · simp only [if_pos hb]
        omega
      · simp only [if_neg hb, ih (i + 1) (genStep p i seed).2 (errors + 1) (by omega)]
        omega

theorem verify_pattern_lat_self (buf : List Nat) :
    verify_pattern_lat buf buf = 0 := by
  induction buf with
  | nil => rfl
  | cons b bs ih => simp [verify_pattern_lat, ih]

theorem verify_pattern_lat_eq_numMismatches (buf expected : List Nat) :
    verify_pattern_lat buf expected = numMismatches buf expected := by
  induction buf generalizing expected with
  | nil => cases expected <;> rfl
  | cons b bs ih =>
    cases expected with
    | nil => rfl
    | cons e es => simp [verify_pattern_lat, numMismatches, ih]

/-- C3. Round-trip correctness of the pattern codec: for every pattern
mode, every seed / iteration value and every length (in whole 32-bit
units), verifying a freshly generated payload reports zero mismatches.
In the optimized-v2 codec the verifier starts from the same LCG seed as
the generator; in the latency-test codec the verifier compares against
the retained copy of the generated buffer. -/
theorem codec_roundtrip_zero_errors :
    (∀ (p : PatternV2) (n seed : Nat),
      verify_pattern p (generate_pattern p n seed).1 seed = 0) ∧
    (∀ (p : PatternLat) (n it : Nat) (rnd : Nat → Nat),
      verify_pattern_lat (generate_pattern_lat p n it rnd)
        (generate_pattern_lat p n it rnd) = 0) := by
  constructor
  · intro p n seed
    exact verifyFrom_generateFrom p n 0 seed
  · intro p n it rnd
    exact verify_pattern_lat_self _

/-- C4 counterexample. In `litepcie_dma_test_optimized_v2.c`, the
`verify_pattern` scan breaks out once the error count exceeds 10: on a
twelve-word all-ones buffer checked against the zeros pattern it returns
11, not the full mismatch count 12. -/
theorem verify_v2_caps_count :
    verify_pattern PatternV2.zeros (List.replicate 12 1) 0 = 11 ∧
    numMismatches (List.replicate 12 1)
      (generate_pattern PatternV2.zeros 12 0).1 = 12 := by
  constructor <;> rfl

/-- C4 (amended). The latency-test `verify_pattern` returns the full
count of mismatching words for every input (its cap of 10 only limits
diagnostic printing), while the optimized-v2 `verify_pattern` stops
counting once the count exceeds 10, returning
`min (full count) 11`. -/
theorem verify_error_count :
    (∀ buf expected : List Nat,
      verify_pattern_lat buf expected = numMismatches buf expected) ∧
    (∀ (p : PatternV2) (buf : List Nat) (seed : Nat),
      verify_pattern p buf seed =
        min (numMismatches buf (generateFrom p 0 buf.length seed).1) 11) := by
  constructor
  · exact verify_pattern_lat_eq_numMismatches
  · intro p buf seed
    have h := verifyFrom_min p buf 0 seed 0 (by omega)
    simpa using h

/-! ### Statistics aggregator of `litepcie_dma_latency_test.c`

`update_stats(uint64_t latency_ns)` updates the running accumulators, the
histogram (`HISTOGRAM_BUCKETS` one-microsecond buckets plus an overflow
counter) and the raw-sample store under `stats_mutex`.  The histogram
array and the sample store are allocated in `main` (allocation failure
is fatal before any measurement), so the C null-pointer guards are
modelled as always passing.  The C doubles carry exact microsecond
values here and are modelled as `ℚ`; the bucket index
`(int)latency_us` is the floor `latency_ns / 1000`.
-/

def HISTOGRAM_BUCKETS : Nat := 1000

/-- The `latency_stats_t` record together with the two histogram globals
(`latency_histogram`, `histogram_overflow`) that `update_stats`
manipulates with it. -/
structure LatencyStats where
  count : Nat
  errors : Nat
  sum_us : ℚ
  sum_sq_us : ℚ
  min_us : ℚ
  max_us : ℚ
  recent_samples : List Nat
  sample_index : Nat
  sample_count : Nat
  histogram : List Nat
  overflow : Nat
deriving DecidableEq

/-- The state after `main` has allocated the structures:
zero counters, `min_us = 1e9`, sample store of capacity
`config.iterations`, histogram of `HISTOGRAM_BUCKETS` empty buckets. -/
def initStats (iterations : Nat) : LatencyStats :=
  { count := 0
    errors := 0
    sum_us := 0
    sum_sq_us := 0
    min_us := 10 ^ 9
    max_us := 0
    recent_samples := List.replicate iterations 0
    sample_index := 0
    sample_count := 0
    histogram := List.replicate HISTOGRAM_BUCKETS 0
    overflow := 0 }

/-- First block of `update_stats`: count, sums, min, max. -/
def updateRunning (s : LatencyStats) (latency_ns : Nat) : LatencyStats :=
  let latency_us : ℚ := (latency_ns : ℚ) / 1000
  { s with
    count := s.count + 1
    sum_us := s.sum_us + latency_us
    sum_sq_us := s.sum_sq_us + latency_us * latency_us
    min_us := if latency_us < s.min_us then latency_us else s.min_us
    max_us := if latency_us > s.max_us then latency_us else s.max_us }

/-- Second block of `update_stats`: the histogram update, gated by
`config.histogram`. -/
def updateHist (histEnabled : Bool) (s : LatencyStats) (latency_ns : Nat) :
    LatencyStats :=
  if histEnabled then
    if latency_ns / 1000 < HISTOGRAM_BUCKETS then
      { s with histogram := s.histogram.set (latency_ns / 1000) (s.histogram.getD (latency_ns / 1000) 0 + 1) }
    else
      { s with overflow := s.overflow + 1 }
  else s

/-- Third block of `update_stats`: the raw-sample store.  The C guard is
`stats.recent_samples && stats.sample_count < config.iterations`, with
the inner `if (stats.sample_count < config.iterations)` re-checked
before `sample_count++`. -/
def updateSamples (iterations : Nat) (s : LatencyStats) (latency_ns : Nat) :
    LatencyStats :=
  if s.sample_count < iterations then
    { s with
      recent_samples := s.recent_samples.set s.sample_index latency_ns
      sample_index := (s.sample_index + 1) % iterations
      sample_count :=
        if s.sample_count < iterations then s.sample_count + 1 else s.sample_count }
  else s

/-- `update_stats(latency_ns)`: the three blocks in program order. -/
def update_stats (histEnabled : Bool) (iterations : Nat) (s : LatencyStats)
    (latency_ns : Nat) : LatencyStats :=
  updateSamples iterations (updateHist histEnabled (updateRunning s latency_ns) latency_ns)
    latency_ns

/-- Outcome of one `measure_dma_latency` call: either a buffer-timeout
(`UINT64_MAX` is returned and the caller records nothing), or a
completed round trip with a measured latency and the number of
mismatching words found by `verify_pattern` (0 when verification is
disabled or clean). -/
inductive MeasureOutcome where
  | timeout
  | completed (latency_ns : Nat) (mismatches : Nat)

/-- One iteration of the measurement loop: `measure_dma_latency` adds
any verification mismatch count to `stats.errors` and still returns the
measured latency; `latency_thread_func` then feeds every non-`UINT64_MAX`
latency into `update_stats`. -/
def iterationStep (histEnabled : Bool) (iterations : Nat) (s : LatencyStats) :
    MeasureOutcome → LatencyStats
  | .timeout => s
  | .completed latency_ns mismatches =>
    let s1 := if mismatches > 0 then { s with errors := s.errors + mismatches } else s
    update_stats histEnabled iterations s1 latency_ns

/-- The index used by `calculate_percentile`:
`index = (int)(p * count / 100.0); if (index >= count) index = count - 1;`. -/
def percentileIndex (p count : Nat) : Nat :=
  if p * count / 100 ≥ count then count - 1 else p * count / 100

/-- `calculate_percentile(p)`: sorts a copy of the stored samples and
indexes it, converting the selected nanosecond sample to microseconds.
Returns 0 when no samples are stored. -/
def calculate_percentile (samples : List Nat) (p : Nat) : ℚ :=
  if samples = [] then 0
  else
    (((List.insertionSort (· ≤ ·) samples).getD
        (percentileIndex p samples.length) 0 : Nat) : ℚ) / 1000

/-! #### Aggregator lemmas -/

theorem sum_set_add_one (l : List Nat) :
    ∀ i, i < l.length → (l.set i (l.getD i 0 + 1)).sum = l.sum + 1 := by
  induction l with
  | nil => intro i h; simp at h
  | cons a as ih =>
    intro i h
    cases i with
    | zero =>
      simp only [List.set, List.getD_cons_zero, List.sum_cons]
      omega
    | succ j =>
      have hj : j < as.length := by simpa using h
      simp only [List.set, List.getD_cons_succ, List.sum_cons, ih j hj]
      omega

theorem updateRunning_fields (s : LatencyStats) (l : Nat) :
    (updateRunning s l).count = s.count + 1 ∧
    (updateRunning s l).errors = s.errors ∧
    (updateRunning s l).histogram = s.histogram ∧
    (updateRunning s l).overflow = s.overflow ∧
    (updateRunning s l).recent_samples = s.recent_samples ∧
    (updateRunning s l).sample_index = s.sample_index ∧
    (updateRunning s l).sample_count = s.sample_count := by
  simp [updateRunning]

theorem updateHist_fields (b : Bool) (s : LatencyStats) (l : Nat) :
    (updateHist b s l).count = s.count ∧
    (updateHist b s l).errors = s.errors ∧
    (updateHist b s l).recent_samples = s.recent_samples ∧
    (updateHist b s l).sample_index = s.sample_index ∧
    (updateHist b s l).sample_count = s.sample_count := by
  unfold updateHist
  split
  · split <;> simp
  · simp

theorem updateHist_true (s : LatencyStats) (l : Nat) :
    (updateHist true s l).histogram =
      (if l / 1000 < HISTOGRAM_BUCKETS
       then s.histogram.set (l / 1000) (s.histogram.getD (l / 1000) 0 + 1)
       else s.histogram) ∧
    (updateHist true s l).overflow =
      (if l / 1000 < HISTOGRAM_BUCKETS then s.overflow else s.overflow + 1) := by
  unfold updateHist
  by_cases hb : l / 1000 < HISTOGRAM_BUCKETS <;> simp [hb]

theorem updateSamples_fields (it : Nat) (s : LatencyStats) (l : Nat) :
    (updateSamples it s l).count = s.count ∧
    (updateSamples it s l).errors = s.errors ∧
    (updateSamples it s l).histogram = s.histogram ∧
    (updateSamples it s l).overflow = s.overflow := by
  unfold updateSamples
  split <;> simp

theorem updateSamples_below (it : Nat) (s : LatencyStats) (l : Nat)
    (h : s.sample_count < it) :
    (updateSamples it s l).recent_samples = s.recent_samples.set s.sample_index l ∧
    (updateSamples it s l).sample_index = (s.sample_index + 1) % it ∧
    (updateSamples it s l).sample_count = s.sample_count + 1 := by
  simp [updateSamples, h]

theorem updateSamples_full (it : Nat) (s : LatencyStats) (l : Nat)
    (h : ¬ s.sample_count < it) :
    updateSamples it s l = s := by
  simp [updateSamples, h]

theorem update_stats_count (b : Bool) (it : Nat) (s : LatencyStats) (l : Nat) :
    (update_stats b it s l).count = s.count + 1 := by
  unfold update_stats
  rw [(updateSamples_fields it _ l).1, (updateHist_fields b _ l).1,
    (updateRunning_fields s l).1]

theorem update_stats_hist (it : Nat) (s : LatencyStats) (l : Nat) :
    (update_stats true it s l).histogram =
      (if l / 1000 < HISTOGRAM_BUCKETS
       then s.histogram.set (l / 1000) (s.histogram.getD (l / 1000) 0 + 1)
       else s.histogram) ∧
    (update_stats true it s l).overflow =
      (if l / 1000 < HISTOGRAM_BUCKETS then s.overflow else s.overflow + 1) := by
  unfold update_stats
  have h1 := updateSamples_fields it (updateHist true (updateRunning s l) l) l
  have h2 := updateHist_true (updateRunning s l) l
  have h3 := updateRunning_fields s l
  rw [h1.2.2.1, h1.2.2.2, h2.1, h2.2, h3.2.2.1, h3.2.2.2.1]
  exact ⟨rfl, rfl⟩

theorem update_stats_hist_sum (it : Nat) (s : LatencyStats) (l : Nat)
    (hlen : s.histogram.length = HISTOGRAM_BUCKETS) :
    (update_stats true it s l).histogram.sum + (update_stats true it s l).overflow =
      s.histogram.sum + s.overflow + 1 ∧
    (update_stats true it s l).histogram.length = HISTOGRAM_BUCKETS := by
  have h := update_stats_hist it s l
  by_cases hb : l / 1000 < HISTOGRAM_BUCKETS
  · rw [h.1, h.2, if_pos hb, if_pos hb]
    refine ⟨?_, by simpa using hlen⟩
    rw [sum_set_add_one s.histogram (l / 1000) (hlen ▸ hb)]
    omega
  · rw [h.1, h.2, if_neg hb, if_neg hb]
    exact ⟨by omega, hlen⟩

theorem foldl_update_stats_invariant (it : Nat) (ls : List Nat) :
    ∀ s : LatencyStats, s.histogram.length = HISTOGRAM_BUCKETS →
      s.histogram.sum + s.overflow = s.count →
      (ls.foldl (update_stats true it) s).histogram.sum +
          (ls.foldl (update_stats true it) s).overflow =
        (ls.foldl (update_stats true it) s).count ∧
      (ls.foldl (update_stats true it) s).count = s.count + ls.length := by
  induction ls with
  | nil => intro s hlen hinv; simpa using hinv
  | cons l rest ih =>
    intro s hlen hinv
    have hsum := update_stats_hist_sum it s l hlen
    have hcount := update_stats_count true it s l
    have hrec := ih (update_stats true it s l) hsum.2 (by omega)
    simp only [List.foldl_cons, List.length_cons]
    exact ⟨hrec.1, by omega⟩

/-- C5. Histogram accounting invariant: with the histogram enabled,
after any sequence of recorded latencies starting from the initial
state, the sum of all bucket counts plus the overflow counter equals the
recorded-sample count; moreover each `update_stats` call increments
`count` by one and increments exactly one of (the bucket
`⌊latency_ns / 1000⌋`, the overflow counter), the overflow counter being
chosen exactly when that index exceeds `HISTOGRAM_BUCKETS - 1`. -/
theorem histogram_accounting (it : Nat) (ls : List Nat) (s : LatencyStats)
    (l : Nat) (hlen : s.histogram.length = HISTOGRAM_BUCKETS) :
    ((ls.foldl (update_stats true it) (initStats it)).histogram.sum +
        (ls.foldl (update_stats true it) (initStats it)).overflow =
      (ls.foldl (update_stats true it) (initStats it)).count) ∧
    (update_stats true it s l).count = s.count + 1 ∧
    (update_stats true it s l).histogram =
      (if l / 1000 < HISTOGRAM_BUCKETS
       then s.histogram.set (l / 1000) (s.histogram.getD (l / 1000) 0 + 1)
       else s.histogram) ∧
    (update_stats true it s l).overflow =
      (if l / 1000 < HISTOGRAM_BUCKETS then s.overflow else s.overflow + 1) := by
  refine ⟨?_, update_stats_count true it s l, (update_stats_hist it s l).1,
    (update_stats_hist it s l).2⟩
  have hinit_len : (initStats it).histogram.length = HISTOGRAM_BUCKETS := by
    simp [initStats]
  have hinit_sum : (initStats it).histogram.sum + (initStats it).overflow =
      (initStats it).count := by
    simp [initStats, List.sum_replicate]
  exact (foldl_update_stats_invariant it ls (initStats it) hinit_len hinit_sum).1

/-- C5 witness: the invariant and the per-record bookkeeping at a
concrete state and latency. -/
theorem histogram_accounting_witness :
    (initStats 2).histogram.length = HISTOGRAM_BUCKETS ∧
    (((([500, 2500000] : List Nat).foldl (update_stats true 2)
          (initStats 2)).histogram.sum +
        (([500, 2500000] : List Nat).foldl (update_stats true 2)
          (initStats 2)).overflow =
      (([500, 2500000] : List Nat).foldl (update_stats true 2)
        (initStats 2)).count) ∧
    (update_stats true 2 (initStats 2) 3).count = (initStats 2).count + 1 ∧
    (update_stats true 2 (initStats 2) 3).histogram =
      (if 3 / 1000 < HISTOGRAM_BUCKETS
       then (initStats 2).histogram.set (3 / 1000)
         ((initStats 2).histogram.getD (3 / 1000) 0 + 1)
       else (initStats 2).histogram) ∧
    (update_stats true 2 (initStats 2) 3).overflow =
      (if 3 / 1000 < HISTOGRAM_BUCKETS then (initStats 2).overflow
       else (initStats 2).overflow + 1)) :=
  ⟨by unfold initStats; exact List.length_replicate _ _,
   histogram_accounting 2 [500, 2500000] (initStats 2) 3
     (by unfold initStats; exact List.length_replicate _ _)⟩

/-- C6 counterexample: the raw-sample store is not a wrap-around ring.
Starting from the initial state with capacity 2, recording 5000 ns and
6000 ns fills the store; a third recording of 7000 ns leaves the stored
samples unchanged instead of overwriting the oldest one. -/
theorem sample_store_drops_when_full :
    (update_stats true 2
        (([5000, 6000] : List Nat).foldl (update_stats true 2) (initStats 2))
        7000).recent_samples = [5000, 6000] ∧
    (([5000, 6000] : List Nat).foldl (update_stats true 2)
        (initStats 2)).sample_count = 2 := by
  constructor <;> rfl

/-- C6 (amended). The raw-sample store inserts each recorded sample at
`sample_index`, advancing the index modulo the capacity, only while it
holds fewer than `config.iterations` samples; once `sample_count`
reaches the capacity, further recordings leave the store, the index and
the stored-sample count unchanged — new samples are discarded, not
overwritten over the oldest. -/
theorem sample_store_behavior (b : Bool) (it : Nat) (s : LatencyStats) (l : Nat) :
    (s.sample_count < it →
      (update_stats b it s l).recent_samples =
        s.recent_samples.set s.sample_index l ∧
      (update_stats b it s l).sample_index = (s.sample_index + 1) % it ∧
      (update_stats b it s l).sample_count = s.sample_count + 1) ∧
    (¬ s.sample_count < it →
      (update_stats b it s l).recent_samples = s.recent_samples ∧
      (update_stats b it s l).sample_index = s.sample_index ∧
      (update_stats b it s l).sample_count = s.sample_count) := by
  have hH := updateHist_fields b (updateRunning s l) l
  have hR := updateRunning_fields s l
  constructor
  · intro h
    have hcnt : (updateHist b (updateRunning s l) l).sample_count < it := by
      rw [hH.2.2.2.2, hR.2.2.2.2.2.2]; exact h
    have hs := updateSamples_below it (updateHist b (updateRunning s l) l) l hcnt
    unfold update_stats
    rw [hs.1, hs.2.1, hs.2.2, hH.2.2.1, hH.2.2.2.1, hH.2.2.2.2,
      hR.2.2.2.2.1, hR.2.2.2.2.2.1, hR.2.2.2.2.2.2]
    exact ⟨rfl, rfl, rfl⟩
  · intro h
    have hcnt : ¬ (updateHist b (updateRunning s l) l).sample_count < it := by
      rw [hH.2.2.2.2, hR.2.2.2.2.2.2]; exact h
    unfold update_stats
    rw [updateSamples_full it _ l hcnt, hH.2.2.1, hH.2.2.2.1, hH.2.2.2.2,
      hR.2.2.2.2.1, hR.2.2.2.2.2.1, hR.2.2.2.2.2.2]
    exact ⟨rfl, rfl, rfl⟩

/-- C6 witness: inserting into a non-full store at a concrete state. -/
theorem sample_store_behavior_witness :
    (initStats 2).sample_count < 2 ∧
    ((update_stats true 2 (initStats 2) 5).recent_samples =
        (initStats 2).recent_samples.set (initStats 2).sample_index 5 ∧
      (update_stats true 2 (initStats 2) 5).sample_index =
        ((initStats 2).sample_index + 1) % 2 ∧
      (update_stats true 2 (initStats 2) 5).sample_count =
        (initStats 2).sample_count + 1) :=
  ⟨by decide, (sample_store_behavior true 2 (initStats 2) 5).1 (by decide)⟩

/-- C8 counterexample: in `litepcie_dma_latency_test.c` an iteration
whose payload verification fails is not excluded from the latency
statistics.  From the initial state, a completed iteration with latency
5000 ns and 3 mismatching words adds 3 to the error counter and still
records the latency: `count` becomes 1 and `sum_us` becomes 5. -/
theorem error_iteration_still_recorded :
    (iterationStep true 4 (initStats 4) (.completed 5000 3)).errors = 3 ∧
    (iterationStep true 4 (initStats 4) (.completed 5000 3)).count = 1 ∧
    (iterationStep true 4 (initStats 4) (.completed 5000 3)).sum_us = 5 := by
  refine ⟨rfl, rfl, ?_⟩
  show (0 : ℚ) + (5000 : ℚ) / 1000 = 5
  norm_num

/-- C8 (amended). The error counter is a separate monotonic counter and
a buffer timeout records nothing, but an iteration whose payload
verification fails both adds the mismatch count to the error counter and
still contributes its measured latency to the latency statistics
(`count` increments and `sum_us` grows by the latency in microseconds). -/
theorem error_counter_and_latency (b : Bool) (it : Nat) (s : LatencyStats)
    (l m : Nat) (hm : 0 < m) :
    iterationStep b it s .timeout = s ∧
    (iterationStep b it s (.completed l m)).errors = s.errors + m ∧
    (iterationStep b it s (.completed l m)).count = s.count + 1 := by
  refine ⟨rfl, ?_, ?_⟩
  · show (update_stats b it (if m > 0 then { s with errors := s.errors + m } else s) l).errors
      = s.errors + m
    rw [if_pos hm]
    unfold update_stats
    rw [(updateSamples_fields it _ l).2.1, (updateHist_fields b _ l).2.1,
      (updateRunning_fields _ l).2.1]
  · show (update_stats b it (if m > 0 then { s with errors := s.errors + m } else s) l).count
      = s.count + 1
    rw [if_pos hm, update_stats_count]

/-- C8 witness: the amended statement at a concrete state. -/
theorem error_counter_and_latency_witness :
    (0 : Nat) < 3 ∧
    (iterationStep true 4 (initStats 4) .timeout = initStats 4 ∧
      (iterationStep true 4 (initStats 4) (.completed 5000 3)).errors =
        (initStats 4).errors + 3 ∧
      (iterationStep true 4 (initStats 4) (.completed 5000 3)).count =
        (initStats 4).count + 1) :=
  ⟨by decide, error_counter_and_latency true 4 (initStats 4) 5000 3 (by decide)⟩

/-! #### Percentile lemmas -/

theorem percentileIndex_lt (p count : Nat) (h : 0 < count) :
    percentileIndex p count < count := by
  unfold percentileIndex
  split <;> omega

theorem percentileIndex_mono (p q count : Nat) (hpq : p ≤ q) :
    percentileIndex p count ≤ percentileIndex q count := by
  have hm : p * count / 100 ≤ q * count / 100 :=
    Nat.div_le_div_right (Nat.mul_le_mul_right count hpq)
  unfold percentileIndex
  split <;> split <;> omega

theorem calculate_percentile_mono (samples : List Nat) (p q : Nat)
    (hne : samples ≠ []) (hpq : p ≤ q) :
    calculate_percentile samples p ≤ calculate_percentile samples q := by
  unfold calculate_percentile
  rw [if_neg hne, if_neg hne]
  have hcount : 0 < samples.length := List.length_pos.mpr hne
  have hlen : (List.insertionSort (· ≤ ·) samples).length = samples.length :=
    List.length_insertionSort _ _
  have hsorted : (List.insertionSort (· ≤ ·) samples).Sorted (· ≤ ·) :=
    List.sorted_insertionSort _ _
  have hip : percentileIndex p samples.length < samples.length :=
    percentileIndex_lt p samples.length hcount
  have hiq : percentileIndex q samples.length < samples.length :=
    percentileIndex_lt q samples.length hcount
  have hget : (List.insertionSort (· ≤ ·) samples).getD
      (percentileIndex p samples.length) 0 ≤
      (List.insertionSort (· ≤ ·) samples).getD
      (percentileIndex q samples.length) 0 := by
    rw [List.getD_eq_get _ _ (by omega), List.getD_eq_get _ _ (by omega)]
    exact hsorted.rel_get_of_le (by
      show (⟨percentileIndex p samples.length, by omega⟩ :
          Fin (List.insertionSort (· ≤ ·) samples).length) ≤ ⟨_, by omega⟩
      exact percentileIndex_mono p q samples.length hpq)
  have hcast : ((List.insertionSort (· ≤ ·) samples).getD
      (percentileIndex p samples.length) 0 : ℚ) ≤
      ((List.insertionSort (· ≤ ·) samples).getD
      (percentileIndex q samples.length) 0 : ℚ) := by
    exact_mod_cast hget
  exact (div_le_div_right (by norm_num : (0 : ℚ) < 1000)).mpr hcast

/-- C9. Percentile queries over the same non-empty stored samples are
monotonic in the requested percentile:
`percentile(50) ≤ percentile(90) ≤ percentile(95) ≤ percentile(99)`,
because each query indexes one sorted copy of the samples at
`⌊p·count/100⌋` clamped to `[0, count-1]`. -/
theorem percentile_monotone (samples : List Nat) (hne : samples ≠ []) :
    calculate_percentile samples 50 ≤ calculate_percentile samples 90 ∧
    calculate_percentile samples 90 ≤ calculate_percentile samples 95 ∧
    calculate_percentile samples 95 ≤ calculate_percentile samples 99 :=
  ⟨calculate_percentile_mono samples 50 90 hne (by omega),
   calculate_percentile_mono samples 90 95 hne (by omega),
   calculate_percentile_mono samples 95 99 hne (by omega)⟩

/-- C9 witness: the percentile chain on a concrete sample set. -/
theorem percentile_monotone_witness :
    ([3, 1, 2] : List Nat) ≠ [] ∧
    (calculate_percentile [3, 1, 2] 50 ≤ calculate_percentile [3, 1, 2] 90 ∧
     calculate_percentile [3, 1, 2] 90 ≤ calculate_percentile [3, 1, 2] 95 ∧
     calculate_percentile [3, 1, 2] 95 ≤ calculate_percentile [3, 1, 2] 99) :=
  ⟨by decide, percentile_monotone [3, 1, 2] (by decide)⟩

/-! ### Probe ledger and main loop of `user/litepcie_latency_test_final.c`

`pcie_latency_test` keeps a ring `pending[MAX_PENDING]` with
`pending_head`/`pending_tail`, a byte array `processed[iterations]`, and
the counters `min_latency`, `max_latency`, `total_latency`,
`successful`, `sequence`, `duplicates`, `sent`, `received`.  The send
path fills a write buffer (`data[0] = MARKER_VALUE`, `data[1] =
sequence`, `data[i] = sequence + i`), stores a ledger entry when the
ring is not full, and always commits the buffer and advances `sequence`
and `sent`.  The receive path is modelled by `recvStep` below.  The
`uint32_t`/`uint64_t` counters only ever increment by one per event and
none of the claims exercises their wraparound, so they are modelled as
`Nat`; payload words wrap at `2 ^ 32` where the C arithmetic does. -/

def MAX_PENDING : Nat := 256

def MARKER_VALUE : Nat := 0xCAFEBABE

/-- Array indexing with a default value (C array reads are always in
bounds here; out-of-range reads only arise for payloads shorter than
the accessed word and yield the default). -/
def nthD {α : Type} (d : α) : List α → Nat → α
  | [], _ => d
  | x :: _, 0 => x
  | _ :: xs, i + 1 => nthD d xs i

/-- One `struct latency_measurement` entry of the pending ring. -/
structure Probe where
  timestamp : Nat
  sequence : Nat
  marker : Nat
deriving DecidableEq

/-- The mutable state of `pcie_latency_test` (DMA handle aside;
`writer_sw_count` counts read-buffer releases). -/
structure TestState where
  pending : List Probe
  pending_head : Nat
  pending_tail : Nat
  processed : List Bool
  min_latency : Nat
  max_latency : Nat
  total_latency : Nat
  successful : Nat
  sequence : Nat
  duplicates : Nat
  sent : Nat
  received : Nat
  writer_sw_count : Nat
deriving DecidableEq

/-- State after initialization: `memset(pending, 0, ...)`,
`calloc(iterations, 1)` for `processed`, `min_latency = UINT64_MAX`. -/
def initTestState (iterations : Nat) : TestState :=
  { pending := List.replicate MAX_PENDING ⟨0, 0, 0⟩
    pending_head := 0
    pending_tail := 0
    processed := List.replicate iterations false
    min_latency := 2 ^ 64 - 1
    max_latency := 0
    total_latency := 0
    successful := 0
    sequence := 0
    duplicates := 0
    sent := 0
    received := 0
    writer_sw_count := 0 }

/-- The send path once a write buffer is available: store the ledger
entry only when the ring is not full, then always commit the buffer and
advance `sequence` and `sent`. -/
def sendStep (s : TestState) (timestamp : Nat) : TestState :=
  if (s.pending_tail + 1) % MAX_PENDING ≠ s.pending_head then
    { s with
      pending := s.pending.set s.pending_tail ⟨timestamp, s.sequence, MARKER_VALUE⟩
      pending_tail := (s.pending_tail + 1) % MAX_PENDING
      sequence := s.sequence + 1
      sent := s.sent + 1 }
  else
    { s with sequence := s.sequence + 1, sent := s.sent + 1 }

/-- The scan `idx = pending_head; while (idx != pending_tail) ...`
looking for `sequence == seq`, advancing `idx = (idx + 1) % MAX_PENDING`.
The loop visits fewer than `MAX_PENDING` slots, expressed by fuel. -/
def findPending (pending : List Probe) (head tail seq : Nat) : Nat → Option Probe
  | 0 => none
  | fuel + 1 =>
    if head = tail then none
    else if (nthD ⟨0, 0, 0⟩ pending head).sequence = seq then
      some (nthD ⟨0, 0, 0⟩ pending head)
    else
      findPending pending ((head + 1) % MAX_PENDING) tail seq fuel

/-- The payload-integrity loop `for (i = 2; i < words; i++)
if (data[i] != rx_sequence + i) ...` on `uint32_t` words. -/
def checkValid (data : List Nat) (rx_sequence words : Nat) : Bool :=
  (List.range words).all fun i =>
    decide (i < 2 ∨ nthD 0 data i = (rx_sequence + i) % 2 ^ 32)

/-- The ledger match of the receive path: scans the ring for the echoed
sequence and, when found and the payload verifies, records the latency
`rx_time - timestamp` into min/max/total and increments `successful`. -/
def matchPending (words : Nat) (s : TestState) (data : List Nat)
    (rx_time rx_sequence : Nat) : TestState :=
  match findPending s.pending s.pending_head s.pending_tail rx_sequence MAX_PENDING with
  | some p =>
    if checkValid data rx_sequence words then
      { s with
        min_latency :=
          if rx_time - p.timestamp < s.min_latency then rx_time - p.timestamp
          else s.min_latency
        max_latency :=
          if rx_time - p.timestamp > s.max_latency then rx_time - p.timestamp
          else s.max_latency
        total_latency := s.total_latency + (rx_time - p.timestamp)
        successful := s.successful + 1 }
    else s
  | none => s

/-- The body of the marker-match branch: duplicate check against
`processed[]`, else mark processed and try to match the ledger; an
out-of-range sequence falls through untouched. -/
def consumeMarked (iterations words : Nat) (s : TestState) (data : List Nat)
    (rx_time : Nat) : TestState :=
  if nthD 0 data 1 < iterations ∧ nthD false s.processed (nthD 0 data 1) = true then
    { s with duplicates := s.duplicates + 1 }
  else if nthD 0 data 1 < iterations then
    matchPending words { s with processed := s.processed.set (nthD 0 data 1) true }
      data rx_time (nthD 0 data 1)
  else s

/-- The receive path once a read buffer is available: packets whose
first word is not the marker are only released; marked packets go
through `consumeMarked` and then increment `received`; the buffer is
always released (`writer_sw_count++`). -/
def recvStep (iterations words : Nat) (s : TestState) (data : List Nat)
    (rx_time : Nat) : TestState :=
  if nthD 0 data 0 = MARKER_VALUE then
    { consumeMarked iterations words s data rx_time with
      received := (consumeMarked iterations words s data rx_time).received + 1
      writer_sw_count :=
        (consumeMarked iterations words s data rx_time).writer_sw_count + 1 }
  else
    { s with writer_sw_count := s.writer_sw_count + 1 }

/-- Number of ledger entries the ring currently holds. -/
def ledgerLen (s : TestState) : Nat :=
  (s.pending_tail + MAX_PENDING - s.pending_head) % MAX_PENDING

/-! #### Ledger and consumer-path lemmas -/

theorem nthD_set_self {α : Type} :
    ∀ (l : List α) (i : Nat) (a d : α), i < l.length → nthD d (l.set i a) i = a
  | [], i, a, d, h => by simp at h
  | _ :: _, 0, a, d, h => rfl
  | x :: xs, i + 1, a, d, h => by
    simp only [List.set, nthD]
    exact nthD_set_self xs i a d (by simpa using h)

theorem nthD_set_ne {α : Type} :
    ∀ (l : List α) (i j : Nat) (a d : α), i ≠ j → nthD d (l.set i a) j = nthD d l j
  | [], _, _, _, _, _ => rfl
  | _ :: _, 0, 0, a, d, h => absurd rfl h
  | _ :: _, 0, j + 1, a, d, _ => rfl
  | _ :: _, i + 1, 0, a, d, _ => rfl
  | x :: xs, i + 1, j + 1, a, d, h => by
    simp only [List.set, nthD]
    exact nthD_set_ne xs i j a d (fun he => h (by omega))

/-- C1. Exactly-once matching: if the pending ring holds a probe for
sequence `q`, `q` is not yet processed and is in range, then the first
echo carrying `q` (marker intact, payload intact) marks `q` processed,
records the latency `t1 - p.timestamp` into min/max/total, and
increments `successful`; a second echo carrying `q` only increments
`duplicates` (besides `received` and the buffer release) and leaves the
latency statistics (`successful`, min, max, total) unchanged. -/
theorem exactly_once_matching (iterations words q t1 t2 : Nat) (s : TestState)
    (p : Probe) (d1 d2 : List Nat)
    (hm1 : nthD 0 d1 0 = MARKER_VALUE) (hd1 : nthD 0 d1 1 = q)
    (hm2 : nthD 0 d2 0 = MARKER_VALUE) (hd2 : nthD 0 d2 1 = q)
    (hq : q < iterations) (hlen : s.processed.length = iterations)
    (hproc : nthD false s.processed q = false)
    (hfind : findPending s.pending s.pending_head s.pending_tail q MAX_PENDING =
      some p)
    (hvalid : checkValid d1 q words = true) :
    recvStep iterations words s d1 t1 =
      { s with
        processed := s.processed.set q true
        min_latency :=
          if t1 - p.timestamp < s.min_latency then t1 - p.timestamp
          else s.min_latency
        max_latency :=
          if t1 - p.timestamp > s.max_latency then t1 - p.timestamp
          else s.max_latency
        total_latency := s.total_latency + (t1 - p.timestamp)
        successful := s.successful + 1
        received := s.received + 1
        writer_sw_count := s.writer_sw_count + 1 } ∧
    recvStep iterations words (recvStep iterations words s d1 t1) d2 t2 =
      { recvStep iterations words s d1 t1 with
        duplicates := (recvStep iterations words s d1 t1).duplicates + 1
        received := (recvStep iterations words s d1 t1).received + 1
        writer_sw_count :=
          (recvStep iterations words s d1 t1).writer_sw_count + 1 } := by
  have hstep1 : recvStep iterations words s d1 t1 =
      { s with
        processed := s.processed.set q true
        min_latency :=
          if t1 - p.timestamp < s.min_latency then t1 - p.timestamp
          else s.min_latency
        max_latency :=
          if t1 - p.timestamp > s.max_latency then t1 - p.timestamp
          else s.max_latency
        total_latency := s.total_latency + (t1 - p.timestamp)
        successful := s.successful + 1
        received := s.received + 1
        writer_sw_count := s.writer_sw_count + 1 } := by
    simp [recvStep, consumeMarked, matchPending, hm1, hd1, hq, hproc, hfind, hvalid]
  refine ⟨hstep1, ?_⟩
  rw [hstep1]
  have hproc2 : nthD false (s.processed.set q true) q = true :=
    nthD_set_self s.processed q true false (by omega)
  simp [recvStep, consumeMarked, hm2, hd2, hq, hproc2]

/-- C1 witness: a concrete two-echo scenario after one send. -/
theorem exactly_once_matching_witness :
    nthD 0 ([3405691582, 0] : List Nat) 0 = MARKER_VALUE ∧
    nthD 0 ([3405691582, 0] : List Nat) 1 = 0 ∧
    (0 : Nat) < 4 ∧
    (sendStep (initTestState 4) 100).processed.length = 4 ∧
    nthD false (sendStep (initTestState 4) 100).processed 0 = false ∧
    findPending (sendStep (initTestState 4) 100).pending
      (sendStep (initTestState 4) 100).pending_head
      (sendStep (initTestState 4) 100).pending_tail 0 MAX_PENDING =
      some ⟨100, 0, MARKER_VALUE⟩ ∧
    checkValid [3405691582, 0] 0 2 = true ∧
    (recvStep 4 2 (sendStep (initTestState 4) 100) [3405691582, 0] 150).successful =
      (sendStep (initTestState 4) 100).successful + 1 ∧
    (recvStep 4 2
        (recvStep 4 2 (sendStep (initTestState 4) 100) [3405691582, 0] 150)
        [3405691582, 0] 160).duplicates =
      (recvStep 4 2 (sendStep (initTestState 4) 100) [3405691582, 0] 150).duplicates
        + 1 := by
  have h := exactly_once_matching 4 2 0 150 160 (sendStep (initTestState 4) 100)
    ⟨100, 0, MARKER_VALUE⟩ [3405691582, 0] [3405691582, 0]
    rfl rfl rfl rfl (by decide) rfl rfl rfl rfl
  refine ⟨rfl, rfl, by decide, rfl, rfl, rfl, rfl, ?_, ?_⟩
  · rw [h.1]
  · rw [h.2, h.1]

/-- C2 counterexample: with the ring full (head 0, tail 255), the send
path silently skips the ledger entry yet still transmits the probe —
`pending` and the ring indices are unchanged while `sent` and
`sequence` advance, so insertion at capacity is not a backpressure
signal that stops the producer. -/
theorem full_ledger_still_transmits :
    (sendStep { initTestState 4 with pending_tail := 255 } 10).pending =
      ({ initTestState 4 with pending_tail := 255 } : TestState).pending ∧
    (sendStep { initTestState 4 with pending_tail := 255 } 10).pending_tail = 255 ∧
    (sendStep { initTestState 4 with pending_tail := 255 } 10).pending_head = 0 ∧
    (sendStep { initTestState 4 with pending_tail := 255 } 10).sent =
      ({ initTestState 4 with pending_tail := 255 } : TestState).sent + 1 ∧
    (sendStep { initTestState 4 with pending_tail := 255 } 10).sequence =
      ({ initTestState 4 with pending_tail := 255 } : TestState).sequence + 1 := by
  refine ⟨?_, ?_, ?_, ?_, ?_⟩ <;> rfl

/-- C2 (amended). The ring never holds more than `MAX_PENDING - 1`
entries and a send never evicts an existing entry: when the ring is not
full the new probe is written at `pending_tail` (every other slot
untouched) and the tail advances; when the ring is full the ledger and
its indices are left untouched — but in both cases the probe is still
transmitted (`sent` and `sequence` advance), so a full ledger silently
drops the ledger entry instead of stopping the producer. -/
theorem ledger_capacity_behavior (s : TestState) (ts : Nat) :
    ledgerLen (sendStep s ts) ≤ MAX_PENDING - 1 ∧
    ((s.pending_tail + 1) % MAX_PENDING ≠ s.pending_head →
      (sendStep s ts).pending =
        s.pending.set s.pending_tail ⟨ts, s.sequence, MARKER_VALUE⟩ ∧
      (∀ i, i ≠ s.pending_tail →
        nthD ⟨0, 0, 0⟩ (sendStep s ts).pending i = nthD ⟨0, 0, 0⟩ s.pending i) ∧
      (sendStep s ts).pending_tail = (s.pending_tail + 1) % MAX_PENDING ∧
      (sendStep s ts).pending_head = s.pending_head ∧
      (sendStep s ts).sent = s.sent + 1 ∧
      (sendStep s ts).sequence = s.sequence + 1) ∧
    ((s.pending_tail + 1) % MAX_PENDING = s.pending_head →
      (sendStep s ts).pending = s.pending ∧
      (sendStep s ts).pending_tail = s.pending_tail ∧
      (sendStep s ts).pending_head = s.pending_head ∧
      (sendStep s ts).sent = s.sent + 1 ∧
      (sendStep s ts).sequence = s.sequence + 1) := by
  refine ⟨?_, ?_, ?_⟩
  · have h : (0 : Nat) < MAX_PENDING := by decide
    have := Nat.mod_lt ((sendStep s ts).pending_tail + MAX_PENDING -
      (sendStep s ts).pending_head) h
    unfold ledgerLen
    omega
  · intro h
    have hs : sendStep s ts =
        { s with
          pending := s.pending.set s.pending_tail ⟨ts, s.sequence, MARKER_VALUE⟩
          pending_tail := (s.pending_tail + 1) % MAX_PENDING
          sequence := s.sequence + 1
          sent := s.sent + 1 } := by
      unfold sendStep
      rw [if_pos h]
    rw [hs]
    exact ⟨rfl,
      fun i hi => nthD_set_ne s.pending s.pending_tail i _ _ (fun he => hi he.symm),
      rfl, rfl, rfl, rfl⟩
  · intro h
    have hs : sendStep s ts =
        { s with sequence := s.sequence + 1, sent := s.sent + 1 } := by
      unfold sendStep
      rw [if_neg (not_not_intro h)]
    rw [hs]
    exact ⟨rfl, rfl, rfl, rfl, rfl⟩

/-- C2 (amended) witness: a non-full send at a concrete state. -/
theorem ledger_capacity_behavior_witness :
    ledgerLen (sendStep (initTestState 4) 7) ≤ MAX_PENDING - 1 ∧
    ((sendStep (initTestState 4) 7).pending =
        (initTestState 4).pending.set 0 ⟨7, 0, MARKER_VALUE⟩ ∧
      (sendStep (initTestState 4) 7).pending_tail = 1 % MAX_PENDING ∧
      (sendStep (initTestState 4) 7).sent = (initTestState 4).sent + 1) := by
  have h := ledger_capacity_behavior (initTestState 4) 7
  have hne : ((initTestState 4).pending_tail + 1) % MAX_PENDING ≠
      (initTestState 4).pending_head := by decide
  have h2 := h.2.1 hne
  exact ⟨h.1, h2.1, h2.2.2.1, h2.2.2.2.2.1⟩

/-- C7 counterexample: an echo whose first word is not the sentinel is
not counted anywhere — there is no spurious-echo counter in
`pcie_latency_test`.  At a concrete state the entire post-state equals
the pre-state except for the buffer release, so in particular no
counter records the event (the claim's "counted as a spurious echo"
has no witness in the code). -/
theorem spurious_echo_not_counted :
    recvStep 4 2 (initTestState 4) [7, 0] 5 =
      { initTestState 4 with
        writer_sw_count := (initTestState 4).writer_sw_count + 1 } := by
  rfl

/-- C7 (amended). An echo whose marker word differs from the sentinel
is ignored without being counted: the state is unchanged except that
the read buffer is released — latency statistics, error-like counters
(`duplicates`), `received` and the ledger are all untouched. -/
theorem spurious_echo_ignored (iterations words : Nat) (s : TestState)
    (data : List Nat) (rx_time : Nat) (h : nthD 0 data 0 ≠ MARKER_VALUE) :
    recvStep iterations words s data rx_time =
      { s with writer_sw_count := s.writer_sw_count + 1 } := by
  simp [recvStep, h]

/-- C7 (amended) witness: a concrete spurious echo. -/
theorem spurious_echo_ignored_witness :
    nthD 0 ([7, 0] : List Nat) 0 ≠ MARKER_VALUE ∧
    recvStep 4 2 { initTestState 4 with duplicates := 1 } [7, 0] 5 =
      { { initTestState 4 with duplicates := 1 } with
        writer_sw_count :=
          ({ initTestState 4 with duplicates := 1 } : TestState).writer_sw_count
            + 1 } :=
  ⟨by decide,
   spurious_echo_ignored 4 2 { initTestState 4 with duplicates := 1 } [7, 0] 5
     (by decide)⟩

/-- C10. An echo whose marker matches the sentinel but whose sequence
is at or beyond the iteration count is neither marked processed, nor
matched against the pending ring, nor counted as a duplicate; only
`received` is incremented and the buffer is released, leaving all
latency statistics unchanged. -/
theorem out_of_range_sequence (iterations words : Nat) (s : TestState)
    (data : List Nat) (rx_time : Nat)
    (hm : nthD 0 data 0 = MARKER_VALUE)
    (hge : iterations ≤ nthD 0 data 1) :
    recvStep iterations words s data rx_time =
      { s with
        received := s.received + 1
        writer_sw_count := s.writer_sw_count + 1 } := by
  have hnlt : ¬ nthD 0 data 1 < iterations := Nat.not_lt.mpr hge
  simp [recvStep, consumeMarked, hm, hnlt]

/-- C10 witness: a marked echo with sequence 5 against iteration count
2 increments only `received` and the release counter. -/
theorem out_of_range_sequence_witness :
    nthD 0 ([3405691582, 5] : List Nat) 0 = MARKER_VALUE ∧
    (2 : Nat) ≤ nthD 0 ([3405691582, 5] : List Nat) 1 ∧
    recvStep 2 2 (initTestState 2) [3405691582, 5] 9 =
      { initTestState 2 with
        received := (initTestState 2).received + 1
        writer_sw_count := (initTestState 2).writer_sw_count + 1 } :=
  ⟨rfl, by decide,
   out_of_range_sequence 2 2 (initTestState 2) [3405691582, 5] 9 rfl (by decide)⟩

end LitePCIe
